import Mathlib

/-!
# Verification of the learn-a-maze simulation core

Shallow embedding of the two core components of the repository:

* `MazeGenerator` (src/services/MazeGenerator.ts): deterministic grid-maze
  generation via randomized iterative depth-first carving with a seeded
  linear-congruential pseudo-random generator.
* `QLearningAgent` (src/services/QLearningAgent.ts): tabular Q-learning with a
  sparse, lazily initialized action-value table keyed by the string `"x,y"`.

Modelling conventions:

* JavaScript numbers are modelled as `ℚ`.  Every arithmetic operation the code
  performs on the modelled values (the LCG state, Q-values, epsilon decay) is
  exact in double precision for the magnitudes involved, or is idealized in the
  standard way.
* The LCG seed is held as `ℕ`: the JS code stores it in a float, but starting
  from the integer seed 555 every intermediate value is an integer below
  2^53, so float arithmetic is exact and agrees with `ℕ` arithmetic.
* JavaScript exceptions (accessing a property of `undefined`, e.g. an
  out-of-bounds `grid[y][x].isWall` write) are modelled by `Option`: a result
  of `none` means the call throws.
* The DFS carving loop is modelled with explicit fuel; `carveLoop_isSome`
  below proves the fuel chosen in `generateCore` is always sufficient, so the
  fuel is never the reason for a `none` result.
* The `visited : Set<string>` of the generator holds keys `` `${x},${y}` ``
  built from integer coordinates; this encoding is injective, so the set is
  modelled directly as a `Finset (ℤ × ℤ)`.
* Mutable JS arrays/objects are modelled by explicit state passing; reads and
  writes happen in the same order as in the source, so aliasing through live
  references is reproduced faithfully.  For the one claim that is genuinely
  about aliasing (`setQTable` copy isolation) a small explicit heap model of
  objects and arrays is used (`JSHeap` below).
-/

namespace LearnAMaze

/-- `Position` from src/types (unnamed part): an integer pair. -/
structure Position where
  x : Int
  y : Int
deriving DecidableEq, Repr

/-- `MazeCell` from src/types: coordinates plus a wall flag. -/
structure MazeCell where
  x : Int
  y : Int
  isWall : Bool
deriving DecidableEq, Repr

/-- The maze grid: rows (indexed by y) of cells (indexed by x). -/
abbrev Grid := List (List MazeCell)

/-- `SeededRandom.next` (src/services/MazeGenerator.ts lines 5-12):
`seed = (seed * 9301 + 49297) % 233280; return seed / 233280`.
Returns the updated seed together with the produced value. -/
def rngNext (seed : Nat) : Nat × ℚ :=
  let s := (seed * 9301 + 49297) % 233280
  (s, (s : ℚ) / 233280)

/-- Read `grid[y][x]`; `none` models the `undefined`/throw cases of the JS
indexing (negative or too-large index). -/
def gridGet (g : Grid) (x y : Int) : Option MazeCell :=
  if 0 ≤ x ∧ 0 ≤ y then
    (g.get? y.toNat).bind fun row => row.get? x.toNat
  else none

/-- Execute `grid[y][x].isWall = b`.  `none` models the TypeError thrown when
`grid[y]` or `grid[y][x]` is `undefined`. -/
def gridSetWall (g : Grid) (x y : Int) (b : Bool) : Option Grid :=
  if 0 ≤ x ∧ 0 ≤ y then
    (g.get? y.toNat).bind fun row =>
      (row.get? x.toNat).map fun c =>
        g.set y.toNat (row.set x.toNat { c with isWall := b })
  else none

/-- The direction offsets of `getUnvisitedNeighbors`
(src/services/MazeGenerator.ts): up, right, down, left, two cells away. -/
def mazeDirections : List Position :=
  [⟨0, -2⟩, ⟨2, 0⟩, ⟨0, 2⟩, ⟨-2, 0⟩]

/-- `getUnvisitedNeighbors(pos, visited)` (src/services/MazeGenerator.ts):
candidates two cells away in each direction, strictly inside the interior
(`0 < nx < width-1`, `0 < ny < height-1`) and not yet visited. -/
def getUnvisitedNeighbors (w h : Nat) (pos : Position) (visited : Finset (Int × Int)) :
    List Position :=
  mazeDirections.filterMap fun d =>
    let nx := pos.x + d.x
    let ny := pos.y + d.y
    if 0 < nx ∧ nx < (w : Int) - 1 ∧ 0 < ny ∧ ny < (h : Int) - 1 ∧ (nx, ny) ∉ visited
    then some ⟨nx, ny⟩ else none

/-- The `while (stack.length > 0)` DFS carving loop of `generate`
(src/services/MazeGenerator.ts lines 44-64), with explicit fuel.  The top of
the JS stack (`stack[stack.length-1]`, pushed/popped at the end) is the head
of the list here.  Returns the final grid and the final rng seed; `none`
models either a thrown out-of-bounds access or fuel exhaustion (the latter is
proved unreachable in `carveLoop_isSome`). -/
def carveLoop (w h : Nat) :
    Nat → Grid → List Position → Finset (Int × Int) → Nat → Option (Grid × Nat)
  | _, grid, [], _, seed => some (grid, seed)
  | 0, _, _ :: _, _, _ => none
  | fuel + 1, grid, current :: rest, visited, seed =>
    match getUnvisitedNeighbors w h current visited with
    | [] => carveLoop w h fuel grid rest visited seed
    | nb0 :: nbs =>
      let neighbors := nb0 :: nbs
      let p := rngNext seed
      -- const next = neighbors[Math.floor(this.rng.next() * neighbors.length)]
      match neighbors.get? (p.2 * (neighbors.length : ℚ)).floor.toNat with
      | none => none
      | some nxt =>
        -- wall between current and next; the sum is even, so JS float division
        -- by 2 agrees with integer division
        let wallX := (current.x + nxt.x) / 2
        let wallY := (current.y + nxt.y) / 2
        match gridSetWall grid wallX wallY false with
        | none => none
        | some g2 =>
          match gridSetWall g2 nxt.x nxt.y false with
          | none => none
          | some g3 =>
            carveLoop w h fuel g3 (nxt :: current :: rest)
              (insert (nxt.x, nxt.y) visited) p.1

/-- The all-wall initial grid of `generate`: `height` rows of `width` cells,
  each cell carrying its own coordinates and `isWall := true`. -/
def initGrid (w h : Nat) : Grid :=
  (List.range h).map fun (y : Nat) => (List.range w).map fun (x : Nat) =>
    { x := (x : Int), y := (y : Int), isWall := true }

/-- Fuel passed to `carveLoop`; `carveLoop_isSome` proves it is sufficient. -/
def mazeFuel (w h : Nat) : Nat := 2 * w * h + 2

/-- The body of `MazeGenerator.generate()` (src/services/MazeGenerator.ts
lines 24-80), starting after the re-seeding: build the all-wall grid, carve
from (1,1) by randomized DFS with rng state starting at seed 555, then
unconditionally clear the 2×2 corner blocks, in source order.  Returns the
grid together with the final rng seed; `none` models a thrown exception. -/
def generateCore (w h : Nat) : Option (Grid × Nat) :=
  -- grid[startNode.y][startNode.x].isWall = false  (startNode = (1,1))
  (gridSetWall (initGrid w h) 1 1 false).bind fun g1 =>
  (carveLoop w h (mazeFuel w h) g1 [⟨1, 1⟩] {((1 : Int), (1 : Int))} 555).bind fun r =>
  -- start-corner carving
  (gridSetWall r.1 0 0 false).bind fun g3 =>
  (gridSetWall g3 1 0 false).bind fun g4 =>
  (gridSetWall g4 0 1 false).bind fun g5 =>
  (gridSetWall g5 1 1 false).bind fun g6 =>
  -- goal-corner carving
  (gridSetWall g6 ((w : Int) - 1) ((h : Int) - 1) false).bind fun g7 =>
  (gridSetWall g7 ((w : Int) - 1) ((h : Int) - 2) false).bind fun g8 =>
  (gridSetWall g8 ((w : Int) - 2) ((h : Int) - 1) false).bind fun g9 =>
  (gridSetWall g9 ((w : Int) - 2) ((h : Int) - 2) false).map fun g10 =>
  (g10, r.2)

/-- The `MazeGenerator` instance state: dimensions fixed at construction plus
the mutable internal `SeededRandom` (held as its current seed). -/
structure MazeGenerator where
  width : Nat
  height : Nat
  rngSeed : Nat
deriving DecidableEq, Repr

/-- The `MazeGenerator` constructor: `this.rng = new SeededRandom(555)`. -/
def MazeGenerator.make (w h : Nat) : MazeGenerator := ⟨w, h, 555⟩

/-- `generate()` as a method: first `this.rng = new SeededRandom(555)`
  (discarding the incoming rng state), then `generateCore`.  Returns the
  produced grid (`none` = throw) and the instance state after the call. -/
def MazeGenerator.generateM (m : MazeGenerator) : Option Grid × MazeGenerator :=
  match generateCore m.width m.height with
  | some gs => (some gs.1, ⟨m.width, m.height, gs.2⟩)
  | none => (none, ⟨m.width, m.height, 555⟩)

/-- `generate()` on a freshly constructed `MazeGenerator(w, h)`. -/
def generate (w h : Nat) : Option Grid :=
  ((MazeGenerator.make w h).generateM).1

/-- The `Action` enum from src/types: `UP = 0, RIGHT = 1, DOWN = 2, LEFT = 3`. -/
inductive Action where
  | UP
  | RIGHT
  | DOWN
  | LEFT
deriving DecidableEq, Repr

/-- The numeric value of an `Action` enum member, used for row indexing. -/
def Action.toIdx : Action → Nat
  | .UP => 0
  | .RIGHT => 1
  | .DOWN => 2
  | .LEFT => 3

/-- `QTable = Record<string, number[]>` from src/types, modelled as the
insertion-ordered association list a JS object is for string keys. -/
abbrev QTable := List (String × List ℚ)

/-- Assignment `obj[k] = v` on a JS object modelled as an association list:
overwrite an existing key in place, otherwise append the new key at the end. -/
def qinsert : QTable → String → List ℚ → QTable
  | [], k, v => [(k, v)]
  | (k2, v2) :: rest, k, v =>
    if k2 = k then (k, v) :: rest else (k2, v2) :: qinsert rest k v

/-- `getStateKey(pos)` (src/services/QLearningAgent.ts): the string
`` `${pos.x},${pos.y}` ``. -/
def getStateKey (pos : Position) : String :=
  toString pos.x ++ "," ++ toString pos.y

/-- `Math.max(...l)`: `none` models the `-Infinity` result of an empty spread
(not representable in `ℚ`; it only arises from malformed externally supplied
rows, and is threaded through `Option`). -/
def listMax : List ℚ → Option ℚ
  | [] => none
  | x :: xs => some (xs.foldl max x)

/-- The `QLearningAgent` instance state (src/services/QLearningAgent.ts
lines 3-12): the Q-table plus the six scalar parameters.  The constant
`actions` array `[UP, RIGHT, DOWN, LEFT]` is `actionsList` below. -/
structure QLearningAgent where
  qTable : QTable
  alpha : ℚ
  gamma : ℚ
  epsilon : ℚ
  initialEpsilon : ℚ
  minEpsilon : ℚ
  decayRate : ℚ
deriving DecidableEq, Repr

/-- The private `actions` array of the agent, in declaration order. -/
def actionsList : List Action := [.UP, .RIGHT, .DOWN, .LEFT]

/-- The `QLearningAgent(alpha, gamma, epsilon)` constructor: field
initializers give `minEpsilon = 0.01`, `decayRate = 0.995` and an empty
table; the constructor body then overwrites `alpha`, `gamma`, `epsilon`
and `initialEpsilon` with the supplied arguments. -/
def QLearningAgent.make (alpha gamma epsilon : ℚ) : QLearningAgent :=
  { qTable := []
    alpha := alpha
    gamma := gamma
    epsilon := epsilon
    initialEpsilon := epsilon
    minEpsilon := 1 / 100
    decayRate := 995 / 1000 }

namespace QLearningAgent

/-- `getQValues(pos)`: look the state key up; on a miss store and return a
fresh `[0, 0, 0, 0]` row (lazy initialization).  Returns the row together
with the updated agent. -/
def getQValues (a : QLearningAgent) (pos : Position) : List ℚ × QLearningAgent :=
  let key := getStateKey pos
  match a.qTable.lookup key with
  | none => ([0, 0, 0, 0], { a with qTable := qinsert a.qTable key [0, 0, 0, 0] })
  | some row => (row, a)

/-- `getMaxQ(pos)`: `Math.max(...this.getQValues(pos))`. -/
def getMaxQ (a : QLearningAgent) (pos : Position) : Option ℚ × QLearningAgent :=
  let p := a.getQValues pos
  (listMax p.1, p.2)

/-- `chooseAction(pos)`: ε-greedy selection.  The two `Math.random()` draws
are passed in as the oracle inputs `r1` (branch test) and `r2` (index
selection).  A `none` action models the `undefined` element read of an
out-of-range index. -/
def chooseAction (a : QLearningAgent) (pos : Position) (r1 r2 : ℚ) :
    Option Action × QLearningAgent :=
  if r1 < a.epsilon then
    (actionsList.get? (r2 * (actionsList.length : ℚ)).floor.toNat, a)
  else
    let p := a.getQValues pos
    let qValues := p.1
    -- const bestActions = this.actions.filter(a => qValues[a] === maxQ)
    let best := actionsList.filter fun act =>
      match qValues.get? act.toIdx, listMax qValues with
      | some v, some m => v == m
      | _, _ => false
    (best.get? (r2 * (best.length : ℚ)).floor.toNat, p.2)

/-- `update(state, action, reward, nextState)` (src/services/QLearningAgent.ts
lines 48-63).  `none` models the NaN/`-Infinity` degeneracies of reading an
out-of-range row index or the max of an empty row; both only arise from
malformed externally supplied rows. -/
def update (a : QLearningAgent) (state : Position) (action : Action) (reward : ℚ)
    (nextState : Position) : Option QLearningAgent :=
  let p1 := a.getQValues state
  let currentQValues := p1.1
  match currentQValues.get? action.toIdx with
  | none => none
  | some oldQ =>
    match p1.2.getMaxQ nextState with
    | (none, _) => none
    | (some maxNextQ, a2) =>
      -- Bellman: newQ = oldQ + alpha * (reward + gamma * maxNextQ - oldQ)
      let newQ := oldQ + a.alpha * (reward + a.gamma * maxNextQ - oldQ)
      some { a2 with
        qTable := qinsert a2.qTable (getStateKey state)
          (currentQValues.set action.toIdx newQ) }

/-- `decayCuriosity()`: `epsilon = Math.max(minEpsilon, epsilon * decayRate)`. -/
def decayCuriosity (a : QLearningAgent) : QLearningAgent :=
  { a with epsilon := max a.minEpsilon (a.epsilon * a.decayRate) }

/-- `resetQTable()`: clear the table and restore `epsilon = initialEpsilon`. -/
def resetQTable (a : QLearningAgent) : QLearningAgent :=
  { a with qTable := [], epsilon := a.initialEpsilon }

/-- `setParameters(alpha, gamma, initialEpsilon)`. -/
def setParameters (a : QLearningAgent) (alpha gamma initialEpsilon : ℚ) :
    QLearningAgent :=
  { a with
    alpha := alpha
    gamma := gamma
    initialEpsilon := initialEpsilon
    epsilon := initialEpsilon }

/-- `setQTable(newQTable)`: `this.qTable = { ...newQTable }` — as a value the
spread copy has exactly the entries of the argument.  (The aliasing behavior
of the spread, which copies row references but not the rows, is modelled
explicitly through `JSHeap` below.) -/
def setQTable (a : QLearningAgent) (newQTable : QTable) : QLearningAgent :=
  { a with qTable := newQTable }

end QLearningAgent

/-! ## Explicit heap model for reference aliasing (`setQTable` copy isolation)

JS objects and arrays live on a heap and variables hold references.  For the
copy-isolation claim the relevant heap shape is: Q-table objects mapping
string keys to *references* of number arrays. -/

/-- A heap of JS values: `objects` holds Q-table objects (entry lists mapping
keys to array addresses), `arrays` holds number arrays.  An address is an
index into the respective list. -/
structure JSHeap where
  objects : List (List (String × Nat))
  arrays : List (List ℚ)
deriving DecidableEq, Repr

/-- Assignment `obj[k] = ref` on an entry list (overwrite or append). -/
def refInsert : List (String × Nat) → String → Nat → List (String × Nat)
  | [], k, r => [(k, r)]
  | (k2, r2) :: rest, k, r =>
    if k2 = k then (k, r) :: rest else (k2, r2) :: refInsert rest k r

/-- `this.qTable = { ...newQTable }` in the heap model: read the caller's
object and allocate a fresh object with the same entries — the row arrays
themselves are not copied, only their references.  Returns the new heap and
the address of the agent's new table object. -/
def setQTableHeap (h : JSHeap) (callerObj : Nat) : Option (JSHeap × Nat) :=
  match h.objects.get? callerObj with
  | none => none
  | some entries =>
    some ({ h with objects := h.objects ++ [entries] }, h.objects.length)

/-- Caller-side top-level mutation `callerTable[k] = someArray`: rebind a key
of the caller's table object in place. -/
def objSetKey (h : JSHeap) (obj : Nat) (k : String) (arr : Nat) : JSHeap :=
  match h.objects.get? obj with
  | none => h
  | some entries => { h with objects := h.objects.set obj (refInsert entries k arr) }

/-- Caller-side row mutation `row[i] = v` on the array at address `arr`. -/
def arrSetElem (h : JSHeap) (arr i : Nat) (v : ℚ) : JSHeap :=
  match h.arrays.get? arr with
  | none => h
  | some row => { h with arrays := h.arrays.set arr (row.set i v) }

/-- The observable content of a table object: its keys with the current
contents of the rows they reference. -/
def viewTable (h : JSHeap) (obj : Nat) : Option (List (String × Option (List ℚ))) :=
  (h.objects.get? obj).map fun entries =>
    entries.map fun kv => (kv.1, h.arrays.get? kv.2)

/-! ## Derived notions the specification speaks about -/

/-- Well-formedness of a Q-table: every stored row has exactly 4 entries. -/
def WFTable (t : QTable) : Prop := ∀ kv ∈ t, (kv.2 : List ℚ).length = 4

instance : DecidablePred WFTable := fun t => by
  unfold WFTable; infer_instance

/-- The row for a position as the spec describes it: the stored row, or the
implicit all-zero row when the key is absent. -/
def lazyRow (t : QTable) (pos : Position) : List ℚ :=
  (t.lookup (getStateKey pos)).getD [0, 0, 0, 0]

/-- The Q-value of a position at a row index (0 when out of range). -/
def qValueAt (t : QTable) (pos : Position) (i : Nat) : ℚ :=
  (lazyRow t pos).getD i 0

/-- Dimension invariant of a grid: `h` rows of `w` cells each. -/
def gridDims (g : Grid) (w h : Nat) : Prop :=
  g.length = h ∧ ∀ row ∈ g, row.length = w

instance (g : Grid) (w h : Nat) : Decidable (gridDims g w h) := by
  unfold gridDims; infer_instance

/-- A position that can be read or written within a `w × h` grid. -/
def posInBounds (w h : Nat) (p : Position) : Prop :=
  0 ≤ p.x ∧ p.x < (w : Int) ∧ 0 ≤ p.y ∧ p.y < (h : Int)

instance (w h : Nat) (p : Position) : Decidable (posInBounds w h p) := by
  unfold posInBounds; infer_instance

/-- The strict-interior coordinate set the DFS carving walks. -/
def interior (w h : Nat) : Finset (Int × Int) :=
  Finset.Ioo 0 ((w : Int) - 1) ×ˢ Finset.Ioo 0 ((h : Int) - 1)

/-- Termination measure of the carving loop: interior cells not yet visited
count twice, stack entries once. -/
def carveMeasure (w h : Nat) (stack : List Position) (visited : Finset (Int × Int)) :
    Nat :=
  2 * ((interior w h) \ visited).card + stack.length

/-- The cell at (x, y) exists in the grid and is not a wall. -/
def nonWallAt (g : Grid) (x y : Int) : Prop :=
  ∃ c, gridGet g x y = some c ∧ c.isWall = false

/-! ## Q-table lemmas -/

theorem lookup_mem {t : QTable} {k : String} {v : List ℚ}
    (h : t.lookup k = some v) : (k, v) ∈ t := by
  induction t with
  | nil => simp [List.lookup] at h
  | cons kv rest ih =>
    obtain ⟨k2, v2⟩ := kv
    rw [List.lookup_cons] at h
    cases hbeq : (k == k2) with
    | true =>
      rw [hbeq] at h
      simp only [Option.some.injEq] at h
      subst h
      exact List.mem_cons.mpr (Or.inl (by rw [eq_of_beq hbeq]))
    | false =>
      rw [hbeq] at h
      exact List.mem_cons.mpr (Or.inr (ih h))

theorem qinsert_lookup_self (t : QTable) (k : String) (v : List ℚ) :
    (qinsert t k v).lookup k = some v := by
  induction t with
  | nil => simp [qinsert, List.lookup]
  | cons kv rest ih =>
    obtain ⟨k2, v2⟩ := kv
    by_cases h : k2 = k
    · subst h; simp [qinsert, List.lookup]
    · have hbeq : (k == k2) = false := beq_eq_false_iff_ne.mpr (Ne.symm h)
      simp [qinsert, h, List.lookup_cons, hbeq, ih]

theorem qinsert_lookup_ne (t : QTable) (k k2 : String) (v : List ℚ)
    (h : k2 ≠ k) : (qinsert t k v).lookup k2 = t.lookup k2 := by
  induction t with
  | nil =>
    have hbeq : (k2 == k) = false := beq_eq_false_iff_ne.mpr h
    simp [qinsert, List.lookup, hbeq]
  | cons kv rest ih =>
    obtain ⟨k3, v3⟩ := kv
    by_cases h3 : k3 = k
    · subst h3
      have hbeq : (k2 == k3) = false := beq_eq_false_iff_ne.mpr h
      simp [qinsert, List.lookup_cons, hbeq]
    · simp only [qinsert, if_neg h3, List.lookup_cons]
      cases hbeq : (k2 == k3) <;> simp [hbeq, ih]

theorem qinsert_length_of_absent (t : QTable) (k : String) (v : List ℚ)
    (h : t.lookup k = none) : (qinsert t k v).length = t.length + 1 := by
  induction t with
  | nil => simp [qinsert]
  | cons kv rest ih =>
    obtain ⟨k2, v2⟩ := kv
    rw [List.lookup_cons] at h
    cases hbeq : (k == k2) with
    | true => rw [hbeq] at h; cases h
    | false =>
      rw [hbeq] at h
      have hne : k2 ≠ k := fun he => by simp [he] at hbeq
      simp [qinsert, hne, ih h]

theorem qinsert_length_of_present (t : QTable) (k : String) (v v0 : List ℚ)
    (h : t.lookup k = some v0) : (qinsert t k v).length = t.length := by
  induction t with
  | nil => simp [List.lookup] at h
  | cons kv rest ih =>
    obtain ⟨k2, v2⟩ := kv
    rw [List.lookup_cons] at h
    cases hbeq : (k == k2) with
    | true =>
      have : k2 = k := (eq_of_beq hbeq).symm
      simp [qinsert, this]
    | false =>
      rw [hbeq] at h
      have hne : k2 ≠ k := fun he => by simp [he] at hbeq
      simp [qinsert, hne, ih h]

theorem WFTable_qinsert {t : QTable} {k : String} {v : List ℚ}
    (ht : WFTable t) (hv : v.length = 4) : WFTable (qinsert t k v) := by
  induction t with
  | nil => intro kv hkv; simp [qinsert] at hkv; subst hkv; exact hv
  | cons kv2 rest ih =>
    obtain ⟨k2, v2⟩ := kv2
    have hrest : WFTable rest := fun kv hkv => ht kv (List.mem_cons_of_mem _ hkv)
    intro kv hkv
    by_cases h : k2 = k
    · subst h
      simp only [qinsert, if_pos rfl] at hkv
      rcases List.mem_cons.mp hkv with h1 | h1
      · subst h1; exact hv
      · exact ht kv (List.mem_cons_of_mem _ h1)
    · simp only [qinsert, if_neg h] at hkv
      rcases List.mem_cons.mp hkv with h1 | h1
      · subst h1; exact ht (k2, v2) (List.mem_cons_self _ _)
      · exact ih hrest kv h1

theorem lazyRow_length {t : QTable} (ht : WFTable t) (pos : Position) :
    (lazyRow t pos).length = 4 := by
  unfold lazyRow
  cases h : t.lookup (getStateKey pos) with
  | none => simp
  | some row => simpa using ht _ (lookup_mem h)

/-! ## Agent operation lemmas -/

namespace QLearningAgent

theorem getQValues_fst (a : QLearningAgent) (pos : Position) :
    (a.getQValues pos).1 = lazyRow a.qTable pos := by
  unfold getQValues lazyRow
  cases h : a.qTable.lookup (getStateKey pos) <;> simp [h]

theorem getQValues_snd_of_absent {a : QLearningAgent} {pos : Position}
    (h : a.qTable.lookup (getStateKey pos) = none) :
    (a.getQValues pos).2 =
      { a with qTable := qinsert a.qTable (getStateKey pos) [0, 0, 0, 0] } := by
  simp [getQValues, h]

theorem getQValues_snd_of_present {a : QLearningAgent} {pos : Position} {row : List ℚ}
    (h : a.qTable.lookup (getStateKey pos) = some row) :
    (a.getQValues pos).2 = a := by
  simp [getQValues, h]

theorem getQValues_snd_lookup_self (a : QLearningAgent) (pos : Position) :
    (a.getQValues pos).2.qTable.lookup (getStateKey pos) = some (a.getQValues pos).1 := by
  cases h : a.qTable.lookup (getStateKey pos) with
  | none =>
    simp only [getQValues, h]
    exact qinsert_lookup_self a.qTable (getStateKey pos) [0, 0, 0, 0]
  | some row => simp [getQValues, h]

theorem getQValues_snd_lookup_ne (a : QLearningAgent) (pos : Position) (k2 : String)
    (hk : k2 ≠ getStateKey pos) :
    (a.getQValues pos).2.qTable.lookup k2 = a.qTable.lookup k2 := by
  cases h : a.qTable.lookup (getStateKey pos) with
  | none =>
    simp only [getQValues, h]
    exact qinsert_lookup_ne a.qTable (getStateKey pos) k2 [0, 0, 0, 0] hk
  | some row => simp [getQValues, h]

theorem WFTable_getQValues {a : QLearningAgent} (ht : WFTable a.qTable)
    (pos : Position) : WFTable (a.getQValues pos).2.qTable := by
  cases h : a.qTable.lookup (getStateKey pos) with
  | none =>
    simp only [getQValues, h]
    exact WFTable_qinsert ht (by simp)
  | some row => simpa [getQValues, h] using ht

end QLearningAgent

/-! ## Small list and action helpers -/

theorem get?_eq_getD {l : List ℚ} {i : Nat} (h : i < l.length) :
    l.get? i = some (l.getD i 0) := by
  rw [List.getD_eq_get?]
  cases hg : l.get? i with
  | none => rw [List.get?_eq_none] at hg; omega
  | some v => simp

theorem getD_set_self {l : List ℚ} {i : Nat} (v : ℚ) (h : i < l.length) :
    (l.set i v).getD i 0 = v := by
  rw [List.getD_eq_get?, List.get?_set_eq_of_lt v h]
  rfl

theorem getD_set_ne {l : List ℚ} {i j : Nat} (v : ℚ) (h : i ≠ j) :
    (l.set i v).getD j 0 = l.getD j 0 := by
  rw [List.getD_eq_get?, List.getD_eq_get?, List.get?_set_ne v l h]

theorem Action.toIdx_lt (act : Action) : act.toIdx < 4 := by
  cases act <;> simp [Action.toIdx]

theorem Action.toIdx_ne {act1 act2 : Action} (h : act1 ≠ act2) :
    act1.toIdx ≠ act2.toIdx := by
  cases act1 <;> cases act2 <;> simp_all [Action.toIdx]

namespace QLearningAgent

theorem lazyRow_after_getQValues (a : QLearningAgent) (s ns : Position) :
    lazyRow (a.getQValues s).2.qTable ns = lazyRow a.qTable ns := by
  by_cases hk : getStateKey ns = getStateKey s
  · unfold lazyRow
    rw [hk, getQValues_snd_lookup_self, getQValues_fst]
    unfold lazyRow
    simp [hk]
  · unfold lazyRow
    rw [getQValues_snd_lookup_ne a s _ hk]

/-- Full symbolic description of one `update` call on a well-formed table:
it succeeds, the value written is the Bellman backup over the pre-call lazy
rows, only the one index of `state`'s row changes, well-formedness is
preserved, and (for a distinct next state) the next state's row is the
pre-call lazy row, freshly stored — two new entries when both keys were
absent. -/
theorem update_full (a : QLearningAgent) (s ns : Position) (act : Action) (r : ℚ)
    (hw : WFTable a.qTable) :
    ∃ a2 m,
      a.update s act r ns = some a2
      ∧ listMax (lazyRow a.qTable ns) = some m
      ∧ lazyRow a2.qTable s =
          (lazyRow a.qTable s).set act.toIdx
            (qValueAt a.qTable s act.toIdx +
              a.alpha * (r + a.gamma * m - qValueAt a.qTable s act.toIdx))
      ∧ WFTable a2.qTable
      ∧ (getStateKey ns ≠ getStateKey s →
          a2.qTable.lookup (getStateKey ns) = some (lazyRow a.qTable ns))
      ∧ (getStateKey ns ≠ getStateKey s →
          a.qTable.lookup (getStateKey ns) = none →
          a.qTable.lookup (getStateKey s) = none →
          a2.qTable.length = a.qTable.length + 2) := by
  have hrow : (a.getQValues s).1 = lazyRow a.qTable s := getQValues_fst a s
  have hlen : (lazyRow a.qTable s).length = 4 := lazyRow_length hw s
  have hold : (a.getQValues s).1.get? act.toIdx
      = some (qValueAt a.qTable s act.toIdx) := by
    rw [hrow]
    exact get?_eq_getD (by rw [hlen]; exact act.toIdx_lt)
  have hw1 : WFTable (a.getQValues s).2.qTable := WFTable_getQValues hw s
  have hlr1 : lazyRow (a.getQValues s).2.qTable ns = lazyRow a.qTable ns :=
    lazyRow_after_getQValues a s ns
  have hnrow : ((a.getQValues s).2.getQValues ns).1 = lazyRow a.qTable ns := by
    rw [getQValues_fst, hlr1]
  have hnlen : (lazyRow a.qTable ns).length = 4 := lazyRow_length hw ns
  obtain ⟨m, hm⟩ : ∃ m, listMax (lazyRow a.qTable ns) = some m := by
    cases hl : lazyRow a.qTable ns with
    | nil => rw [hl] at hnlen; cases hnlen
    | cons x xs => exact ⟨xs.foldl max x, rfl⟩
  have hold2 : (lazyRow a.qTable s).get? act.toIdx
      = some (qValueAt a.qTable s act.toIdx) := by
    unfold qValueAt
    exact get?_eq_getD (by rw [hlen]; exact act.toIdx_lt)
  have hupd : a.update s act r ns =
      some { ((a.getQValues s).2.getQValues ns).2 with
        qTable := qinsert ((a.getQValues s).2.getQValues ns).2.qTable (getStateKey s)
          ((lazyRow a.qTable s).set act.toIdx
            (qValueAt a.qTable s act.toIdx +
              a.alpha * (r + a.gamma * m - qValueAt a.qTable s act.toIdx))) } := by
    simp only [update, getMaxQ, hrow, hold2, hnrow, hm]
  refine ⟨_, m, hupd, hm, ?_, ?_, ?_, ?_⟩
  · unfold lazyRow
    simp only [qinsert_lookup_self]
    rfl
  · refine WFTable_qinsert (WFTable_getQValues hw1 ns) ?_
    rw [List.length_set, hlen]
  · intro hne
    simp only [qinsert_lookup_ne _ _ _ _ hne]
    rw [getQValues_snd_lookup_self, hnrow]
  · intro hne hnn hsn
    have ha1tab : (a.getQValues s).2.qTable =
        qinsert a.qTable (getStateKey s) [0, 0, 0, 0] := by
      rw [getQValues_snd_of_absent hsn]
    have hlen1 : (a.getQValues s).2.qTable.length = a.qTable.length + 1 := by
      rw [ha1tab]; exact qinsert_length_of_absent _ _ _ hsn
    have hnn1 : (a.getQValues s).2.qTable.lookup (getStateKey ns) = none := by
      rw [getQValues_snd_lookup_ne a s _ hne]; exact hnn
    have ha2tab : ((a.getQValues s).2.getQValues ns).2.qTable =
        qinsert (a.getQValues s).2.qTable (getStateKey ns) [0, 0, 0, 0] := by
      rw [getQValues_snd_of_absent hnn1]
    have hlen2 : ((a.getQValues s).2.getQValues ns).2.qTable.length =
        a.qTable.length + 2 := by
      rw [ha2tab, qinsert_length_of_absent _ _ _ hnn1, hlen1]
    have hpres : ((a.getQValues s).2.getQValues ns).2.qTable.lookup (getStateKey s)
        = some [0, 0, 0, 0] := by
      rw [ha2tab, qinsert_lookup_ne _ _ _ _ (Ne.symm hne), ha1tab,
        qinsert_lookup_self]
    simp only
    rw [qinsert_length_of_present _ _ _ _ hpres, hlen2]

end QLearningAgent

/-! ## Claim theorems: Q-learning agent -/

/-- C3: for every state, action, reward and nextState (over a well-formed
table, cf. C7), `update` writes exactly
`newQ = oldQ + alpha * (reward + gamma * maxQ(nextState) - oldQ)` into the
row for `state` at index `action`, where `oldQ` is the value stored for
(state, action) before the call and `maxQ(nextState)` is the maximum of
nextState's lazily zero-initialized row, and leaves the other 3 entries of
state's row unchanged. -/
theorem claim_C3_bellman_update (a : QLearningAgent) (s ns : Position)
    (act : Action) (r : ℚ) (hw : WFTable a.qTable) :
    ∃ a2 m, a.update s act r ns = some a2
      ∧ listMax (lazyRow a.qTable ns) = some m
      ∧ qValueAt a2.qTable s act.toIdx
          = qValueAt a.qTable s act.toIdx
            + a.alpha * (r + a.gamma * m - qValueAt a.qTable s act.toIdx)
      ∧ ∀ act2 : Action, act2 ≠ act →
          qValueAt a2.qTable s act2.toIdx = qValueAt a.qTable s act2.toIdx := by
  obtain ⟨a2, m, h1, h2, h3, -, -, -⟩ := QLearningAgent.update_full a s ns act r hw
  refine ⟨a2, m, h1, h2, ?_, ?_⟩
  · unfold qValueAt
    rw [h3]
    exact getD_set_self _ (by rw [lazyRow_length hw s]; exact Action.toIdx_lt act)
  · intro act2 hne
    unfold qValueAt
    rw [h3]
    exact getD_set_ne _ (Action.toIdx_ne (Ne.symm hne))

/-- Witness for C3 at a concrete input: a fresh agent with alpha = 0.1,
gamma = 0.9 updated with reward 10 writes 0 + 0.1·(10 + 0.9·0 − 0) = 1. -/
theorem claim_C3_bellman_update_witness :
    ∃ a2 m,
      (QLearningAgent.make (1/10) (9/10) (1/10)).update ⟨1, 1⟩ .RIGHT 10 ⟨2, 1⟩
        = some a2
      ∧ listMax (lazyRow (QLearningAgent.make (1/10) (9/10) (1/10)).qTable ⟨2, 1⟩)
          = some m
      ∧ qValueAt a2.qTable ⟨1, 1⟩ Action.RIGHT.toIdx
          = qValueAt (QLearningAgent.make (1/10) (9/10) (1/10)).qTable ⟨1, 1⟩
              Action.RIGHT.toIdx
            + (QLearningAgent.make (1/10) (9/10) (1/10)).alpha
              * (10 + (QLearningAgent.make (1/10) (9/10) (1/10)).gamma * m
                - qValueAt (QLearningAgent.make (1/10) (9/10) (1/10)).qTable ⟨1, 1⟩
                    Action.RIGHT.toIdx)
      ∧ ∀ act2 : Action, act2 ≠ .RIGHT →
          qValueAt a2.qTable ⟨1, 1⟩ act2.toIdx
            = qValueAt (QLearningAgent.make (1/10) (9/10) (1/10)).qTable ⟨1, 1⟩
                act2.toIdx :=
  claim_C3_bellman_update (QLearningAgent.make (1/10) (9/10) (1/10))
    ⟨1, 1⟩ ⟨2, 1⟩ .RIGHT 10 (by decide)

/-- C6 counterexample: the constructor accepts an epsilon below the 0.01
floor; such an agent has 0 < decayRate < 1, yet `decayCuriosity` strictly
*increases* epsilon (from 1/200 up to the floor 1/100), refuting
unconditional monotone non-increase. -/
theorem claim_C6_counterexample :
    0 < (QLearningAgent.make (1/10) (9/10) (1/200)).decayRate
    ∧ (QLearningAgent.make (1/10) (9/10) (1/200)).decayRate < 1
    ∧ (QLearningAgent.make (1/10) (9/10) (1/200)).epsilon
        < (QLearningAgent.make (1/10) (9/10) (1/200)).decayCuriosity.epsilon := by
  refine ⟨by norm_num [QLearningAgent.make], by norm_num [QLearningAgent.make], ?_⟩
  simp only [QLearningAgent.make, QLearningAgent.decayCuriosity]
  rw [max_eq_left (by norm_num)]
  norm_num

/-- C6 (amended): `decayCuriosity` sets epsilon to
`max(minEpsilon, epsilon * decayRate)`; for every agent with
0 < decayRate < 1 *whose epsilon is at least minEpsilon ≥ 0*, epsilon is
monotonically non-increasing across repeated calls, never goes below
minEpsilon, and once it equals minEpsilon further calls keep it there. -/
theorem claim_C6_decay_monotone (a : QLearningAgent)
    (_hd0 : 0 < a.decayRate) (hd1 : a.decayRate < 1)
    (hm0 : 0 ≤ a.minEpsilon) (hme : a.minEpsilon ≤ a.epsilon) :
    a.decayCuriosity.epsilon = max a.minEpsilon (a.epsilon * a.decayRate)
    ∧ (∀ n : ℕ, (QLearningAgent.decayCuriosity^[n + 1] a).epsilon
        ≤ (QLearningAgent.decayCuriosity^[n] a).epsilon)
    ∧ (∀ n : ℕ, 1 ≤ n →
        a.minEpsilon ≤ (QLearningAgent.decayCuriosity^[n] a).epsilon)
    ∧ (a.epsilon = a.minEpsilon → a.decayCuriosity.epsilon = a.minEpsilon) := by
  have hparams : ∀ n : ℕ,
      (QLearningAgent.decayCuriosity^[n] a).minEpsilon = a.minEpsilon
      ∧ (QLearningAgent.decayCuriosity^[n] a).decayRate = a.decayRate := by
    intro n
    induction n with
    | zero => exact ⟨rfl, rfl⟩
    | succ k ih =>
      rw [Function.iterate_succ_apply']
      exact ⟨ih.1, ih.2⟩
  have hgeSucc : ∀ n : ℕ,
      a.minEpsilon ≤ (QLearningAgent.decayCuriosity^[n + 1] a).epsilon := by
    intro n
    rw [Function.iterate_succ_apply']
    simp only [QLearningAgent.decayCuriosity]
    rw [← (hparams n).1]
    exact le_max_left _ _
  have hgeAll : ∀ n : ℕ,
      a.minEpsilon ≤ (QLearningAgent.decayCuriosity^[n] a).epsilon := by
    intro n
    cases n with
    | zero => exact hme
    | succ k => exact hgeSucc k
  refine ⟨rfl, ?_, ?_, ?_⟩
  · intro n
    rw [Function.iterate_succ_apply']
    simp only [QLearningAgent.decayCuriosity]
    apply max_le
    · rw [(hparams n).1]
      exact hgeAll n
    · rw [(hparams n).2]
      exact mul_le_of_le_one_right (hm0.trans (hgeAll n)) hd1.le
  · intro n hn
    cases n with
    | zero => omega
    | succ k => exact hgeSucc k
  · intro he
    simp only [QLearningAgent.decayCuriosity]
    rw [he]
    exact max_eq_left (mul_le_of_le_one_right hm0 hd1.le)

/-- Witness for the amended C6 at a concrete agent (epsilon = 1). -/
theorem claim_C6_decay_monotone_witness :
    (QLearningAgent.make (1/10) (9/10) 1).decayCuriosity.epsilon
      = max (QLearningAgent.make (1/10) (9/10) 1).minEpsilon
          ((QLearningAgent.make (1/10) (9/10) 1).epsilon
            * (QLearningAgent.make (1/10) (9/10) 1).decayRate)
    ∧ (QLearningAgent.decayCuriosity^[1]
          (QLearningAgent.make (1/10) (9/10) 1)).epsilon
        ≤ (QLearningAgent.decayCuriosity^[0]
          (QLearningAgent.make (1/10) (9/10) 1)).epsilon
    ∧ (QLearningAgent.make (1/10) (9/10) 1).minEpsilon
        ≤ (QLearningAgent.decayCuriosity^[1]
          (QLearningAgent.make (1/10) (9/10) 1)).epsilon := by
  obtain ⟨h1, h2, h3, -⟩ :=
    claim_C6_decay_monotone (QLearningAgent.make (1/10) (9/10) 1)
      (by norm_num [QLearningAgent.make]) (by norm_num [QLearningAgent.make])
      (by norm_num [QLearningAgent.make]) (by norm_num [QLearningAgent.make])
  exact ⟨h1, h2 0, h3 1 (le_refl 1)⟩

/-- C7: the Q-table invariant — every stored key maps to a row of exactly 4
values, absent keys behave as implicitly all-zero and are lazily stored as
`[0,0,0,0]` on first access — holds of the initial table and is preserved by
every operation (assuming a table supplied via `setQTable` satisfies it). -/
theorem claim_C7_table_invariant (al ga ep : ℚ) (a a2 : QLearningAgent)
    (s ns : Position) (act : Action) (r r1 r2 : ℚ) (t : QTable)
    (hw : WFTable a.qTable) (hwt : WFTable t) :
    WFTable (QLearningAgent.make al ga ep).qTable
    ∧ WFTable (a.getQValues s).2.qTable
    ∧ WFTable (a.getMaxQ s).2.qTable
    ∧ WFTable (a.chooseAction s r1 r2).2.qTable
    ∧ (a.update s act r ns = some a2 → WFTable a2.qTable)
    ∧ WFTable a.decayCuriosity.qTable
    ∧ WFTable a.resetQTable.qTable
    ∧ WFTable (a.setQTable t).qTable
    ∧ (a.qTable.lookup (getStateKey s) = none →
        (a.getQValues s).1 = [0, 0, 0, 0]
        ∧ (a.getQValues s).2.qTable.lookup (getStateKey s) = some [0, 0, 0, 0]) := by
  refine ⟨?_, QLearningAgent.WFTable_getQValues hw s,
    QLearningAgent.WFTable_getQValues hw s, ?_, ?_, hw, ?_, hwt, ?_⟩
  · intro kv hkv
    simp [QLearningAgent.make] at hkv
  · unfold QLearningAgent.chooseAction
    by_cases hb : r1 < a.epsilon
    · simpa [hb] using hw
    · simpa [hb] using QLearningAgent.WFTable_getQValues hw s
  · intro hupd
    obtain ⟨a3, m, h1, -, -, hwf, -, -⟩ :=
      QLearningAgent.update_full a s ns act r hw
    rw [hupd] at h1
    obtain rfl : a2 = a3 := by injection h1
    exact hwf
  · intro kv hkv
    simp [QLearningAgent.resetQTable] at hkv
  · intro hnone
    constructor
    · simp [QLearningAgent.getQValues, hnone]
    · simp only [QLearningAgent.getQValues, hnone]
      exact qinsert_lookup_self _ _ _

/-- Witness for C7 at concrete inputs, with `a2` the actual result of the
concrete `update` call. -/
theorem claim_C7_table_invariant_witness :
    WFTable (QLearningAgent.make 1 1 1).qTable
    ∧ WFTable ((QLearningAgent.make (1/10) (9/10) (1/10)).getQValues ⟨1, 1⟩).2.qTable
    ∧ WFTable ((QLearningAgent.make (1/10) (9/10) (1/10)).getMaxQ ⟨1, 1⟩).2.qTable
    ∧ WFTable ((QLearningAgent.make (1/10) (9/10) (1/10)).chooseAction ⟨1, 1⟩
        (1/2) (1/2)).2.qTable
    ∧ ((QLearningAgent.make (1/10) (9/10) (1/10)).update ⟨1, 1⟩ .RIGHT 10 ⟨2, 1⟩
        = some ⟨[("1,1", [0, 1, 0, 0]), ("2,1", [0, 0, 0, 0])],
            1/10, 9/10, 1/10, 1/10, 1/100, 995/1000⟩ →
        WFTable (⟨[("1,1", [0, 1, 0, 0]), ("2,1", [0, 0, 0, 0])],
            1/10, 9/10, 1/10, 1/10, 1/100, 995/1000⟩ : QLearningAgent).qTable)
    ∧ WFTable (QLearningAgent.make (1/10) (9/10) (1/10)).decayCuriosity.qTable
    ∧ WFTable (QLearningAgent.make (1/10) (9/10) (1/10)).resetQTable.qTable
    ∧ WFTable ((QLearningAgent.make (1/10) (9/10) (1/10)).setQTable
        [("0,0", [1, 2, 3, 4])]).qTable
    ∧ ((QLearningAgent.make (1/10) (9/10) (1/10)).qTable.lookup
          (getStateKey ⟨1, 1⟩) = none →
        ((QLearningAgent.make (1/10) (9/10) (1/10)).getQValues ⟨1, 1⟩).1
          = [0, 0, 0, 0]
        ∧ ((QLearningAgent.make (1/10) (9/10) (1/10)).getQValues ⟨1, 1⟩).2.qTable.lookup
            (getStateKey ⟨1, 1⟩) = some [0, 0, 0, 0]) :=
  claim_C7_table_invariant 1 1 1 (QLearningAgent.make (1/10) (9/10) (1/10))
    ⟨[("1,1", [0, 1, 0, 0]), ("2,1", [0, 0, 0, 0])],
      1/10, 9/10, 1/10, 1/10, 1/100, 995/1000⟩
    ⟨1, 1⟩ ⟨2, 1⟩ .RIGHT 10 (1/2) (1/2) [("0,0", [1, 2, 3, 4])]
    (by decide) (by decide)

/-- C8: if nextState's key is absent and differs from state's key, `update`
additionally stores nextState's key mapped to `[0,0,0,0]` (a side effect of
reading `maxQ(nextState)`); when state's key is absent too, the single call
adds two entries to the table. -/
theorem claim_C8_lazy_next_state_insert (a : QLearningAgent) (s ns : Position)
    (act : Action) (r : ℚ) (hw : WFTable a.qTable)
    (hne : getStateKey ns ≠ getStateKey s)
    (habs : a.qTable.lookup (getStateKey ns) = none) :
    ∃ a2, a.update s act r ns = some a2
      ∧ a2.qTable.lookup (getStateKey ns) = some [0, 0, 0, 0]
      ∧ (a.qTable.lookup (getStateKey s) = none →
          a2.qTable.length = a.qTable.length + 2) := by
  obtain ⟨a2, m, h1, -, -, -, h5, h6⟩ :=
    QLearningAgent.update_full a s ns act r hw
  refine ⟨a2, h1, ?_, fun hs => h6 hne habs hs⟩
  rw [h5 hne]
  unfold lazyRow
  rw [habs]
  rfl

/-- Witness for C8 at a concrete input: updating (0,0) → (1,0) on a fresh
agent stores both rows. -/
theorem claim_C8_lazy_next_state_insert_witness :
    ∃ a2, (QLearningAgent.make (1/10) (9/10) (1/10)).update ⟨0, 0⟩ .RIGHT 10 ⟨1, 0⟩
        = some a2
      ∧ a2.qTable.lookup (getStateKey ⟨1, 0⟩) = some [0, 0, 0, 0]
      ∧ ((QLearningAgent.make (1/10) (9/10) (1/10)).qTable.lookup
            (getStateKey ⟨0, 0⟩) = none →
          a2.qTable.length
            = (QLearningAgent.make (1/10) (9/10) (1/10)).qTable.length + 2) :=
  claim_C8_lazy_next_state_insert (QLearningAgent.make (1/10) (9/10) (1/10))
    ⟨0, 0⟩ ⟨1, 0⟩ .RIGHT 10 (by decide) (by decide) (by decide)

/-- C10: the constructor sets epsilon and initialEpsilon to the epsilon
argument, alpha and gamma to their arguments, minEpsilon to 0.01, decayRate
to 0.995, and starts with an empty Q-table. -/
theorem claim_C10_constructor (al ga ep : ℚ) :
    (QLearningAgent.make al ga ep).alpha = al
    ∧ (QLearningAgent.make al ga ep).gamma = ga
    ∧ (QLearningAgent.make al ga ep).epsilon = ep
    ∧ (QLearningAgent.make al ga ep).initialEpsilon = ep
    ∧ (QLearningAgent.make al ga ep).minEpsilon = 1 / 100
    ∧ (QLearningAgent.make al ga ep).decayRate = 995 / 1000
    ∧ (QLearningAgent.make al ga ep).qTable = [] :=
  ⟨rfl, rfl, rfl, rfl, rfl, rfl, rfl⟩

/-! ## Claim theorems: setQTable copy isolation (heap model) -/

/-- C1 counterexample: `setQTable` is a *shallow* copy (`{ ...newQTable }`),
so mutating an individual row array of the caller's structure afterwards
changes the agent's internally held table: with one table object whose key
"0,0" references the array [1,2,3,4], after `setQTable` the write
`row[0] = 99` through the caller's array is visible in the agent's view. -/
theorem claim_C1_counterexample :
    ∃ hp2 agentObj,
      setQTableHeap ⟨[[("0,0", 0)]], [[1, 2, 3, 4]]⟩ 0 = some (hp2, agentObj)
      ∧ viewTable (arrSetElem hp2 0 0 99) agentObj ≠ viewTable hp2 agentObj := by
  refine ⟨⟨[[("0,0", 0)], [("0,0", 0)]], [[1, 2, 3, 4]]⟩, 1, by decide, by decide⟩

/-- C1 (amended): `setQTable(table)` installs a *shallow* copy — a fresh
top-level object with the same row references.  Hence the agent's view
coincides with the caller's at copy time, and later *top-level* mutation of
the caller's object (rebinding a key) does not affect the agent's table;
in-place mutation of a shared row array, however, does (counterexample). -/
theorem claim_C1_shallow_copy (hp : JSHeap) (callerObj : Nat)
    (hp2 : JSHeap) (agentObj : Nat)
    (hset : setQTableHeap hp callerObj = some (hp2, agentObj)) :
    viewTable hp2 agentObj = viewTable hp2 callerObj
    ∧ ∀ k arr, viewTable (objSetKey hp2 callerObj k arr) agentObj
        = viewTable hp2 agentObj := by
  unfold setQTableHeap at hset
  cases hobj : hp.objects.get? callerObj with
  | none => rw [hobj] at hset; cases hset
  | some entries =>
    rw [hobj] at hset
    simp only [Option.some.injEq, Prod.mk.injEq] at hset
    obtain ⟨rfl, rfl⟩ := hset
    have hlt : callerObj < hp.objects.length := by
      rcases List.get?_eq_some.mp hobj with ⟨hl, -⟩
      exact hl
    have hagent : (hp.objects ++ [entries]).get? hp.objects.length = some entries :=
      List.get?_concat_length hp.objects entries
    have hcaller : (hp.objects ++ [entries]).get? callerObj = some entries := by
      rw [List.get?_append hlt, hobj]
    constructor
    · unfold viewTable
      simp only [hagent, hcaller]
    · intro k arr
      unfold objSetKey
      simp only [hcaller]
      unfold viewTable
      simp only
      rw [List.get?_set_ne _ _ (Nat.ne_of_lt hlt)]

/-- Witness for the amended C1 at the concrete one-entry heap. -/
theorem claim_C1_shallow_copy_witness :
    viewTable ⟨[[("0,0", 0)], [("0,0", 0)]], [[1, 2, 3, 4]]⟩ 1
      = viewTable ⟨[[("0,0", 0)], [("0,0", 0)]], [[1, 2, 3, 4]]⟩ 0
    ∧ viewTable (objSetKey ⟨[[("0,0", 0)], [("0,0", 0)]], [[1, 2, 3, 4]]⟩ 0 "1,1" 0) 1
      = viewTable ⟨[[("0,0", 0)], [("0,0", 0)]], [[1, 2, 3, 4]]⟩ 1 := by
  obtain ⟨h1, h2⟩ := claim_C1_shallow_copy ⟨[[("0,0", 0)]], [[1, 2, 3, 4]]⟩ 0
    ⟨[[("0,0", 0)], [("0,0", 0)]], [[1, 2, 3, 4]]⟩ 1 (by decide)
  exact ⟨h1, h2 "1,1" 0⟩

/-! ## Maze generator lemmas -/

theorem rngNext_nonneg (seed : Nat) : 0 ≤ (rngNext seed).2 := by
  unfold rngNext
  positivity

theorem rngNext_lt_one (seed : Nat) : (rngNext seed).2 < 1 := by
  unfold rngNext
  rw [div_lt_one (by norm_num)]
  have : (seed * 9301 + 49297) % 233280 < 233280 := Nat.mod_lt _ (by norm_num)
  exact_mod_cast this

theorem floor_index_lt {r : ℚ} (h0 : 0 ≤ r) (h1 : r < 1) {n : ℕ} (hn : 0 < n) :
    (r * (n : ℚ)).floor.toNat < n := by
  have hq : (0 : ℚ) < (n : ℚ) := by exact_mod_cast hn
  have h2 : r * (n : ℚ) < (n : ℚ) := by
    calc r * (n : ℚ) < 1 * (n : ℚ) := mul_lt_mul_of_pos_right h1 hq
    _ = (n : ℚ) := one_mul _
  have h3 : (r * (n : ℚ)).floor < (n : ℤ) := by
    by_contra hcon
    push_neg at hcon
    have : ((n : ℤ) : ℚ) ≤ r * (n : ℚ) := Rat.le_floor.mp hcon
    rw [Int.cast_natCast] at this
    exact absurd h2 (not_lt.mpr this)
  have h4 : 0 ≤ (r * (n : ℚ)).floor := by
    rw [show (0 : ℤ) = (0 : ℤ) from rfl]
    exact Rat.le_floor.mpr (by push_cast; positivity)
  exact (Int.toNat_lt h4).mpr h3

theorem get?_mem_of_lt {l : List Position} {i : Nat} (h : i < l.length) :
    ∃ p, l.get? i = some p ∧ p ∈ l := by
  cases hg : l.get? i with
  | none => rw [List.get?_eq_none] at hg; omega
  | some p => exact ⟨p, rfl, List.get?_mem hg⟩

theorem neighbors_bounds {w h : Nat} {cur : Position} {visited : Finset (Int × Int)} :
    ∀ nxt ∈ getUnvisitedNeighbors w h cur visited,
      0 < nxt.x ∧ nxt.x < (w : Int) - 1 ∧ 0 < nxt.y ∧ nxt.y < (h : Int) - 1
      ∧ (nxt.x, nxt.y) ∉ visited := by
  intro nxt hm
  unfold getUnvisitedNeighbors at hm
  rw [List.mem_filterMap] at hm
  obtain ⟨d, -, hfd⟩ := hm
  dsimp only at hfd
  split_ifs at hfd with hc
  injection hfd with he
  subst he
  exact hc

theorem gridSetWall_isSome {g : Grid} {w h : Nat} (hg : gridDims g w h) (x y : Int)
    (hx0 : 0 ≤ x) (hxw : x < (w : Int)) (hy0 : 0 ≤ y) (hyh : y < (h : Int)) (b : Bool) :
    ∃ g2, gridSetWall g x y b = some g2 ∧ gridDims g2 w h := by
  obtain ⟨hlen, hrows⟩ := hg
  have hyn : y.toNat < g.length := by rw [hlen]; exact (Int.toNat_lt hy0).mpr hyh
  obtain ⟨row, hrow⟩ : ∃ row, g.get? y.toNat = some row := by
    cases hr : g.get? y.toNat with
    | none => rw [List.get?_eq_none] at hr; omega
    | some row => exact ⟨row, rfl⟩
  have hrw : row.length = w := hrows row (List.get?_mem hrow)
  have hxn : x.toNat < row.length := by rw [hrw]; exact (Int.toNat_lt hx0).mpr hxw
  obtain ⟨c, hc⟩ : ∃ c, row.get? x.toNat = some c := by
    cases hr : row.get? x.toNat with
    | none => rw [List.get?_eq_none] at hr; omega
    | some c => exact ⟨c, rfl⟩
  refine ⟨g.set y.toNat (row.set x.toNat { c with isWall := b }), ?_, ?_, ?_⟩
  · unfold gridSetWall
    rw [if_pos ⟨hx0, hy0⟩, hrow, Option.some_bind, hc]
    rfl
  · rw [List.length_set]; exact hlen
  · intro row2 hrow2
    rcases List.mem_or_eq_of_mem_set hrow2 with h2 | h2
    · exact hrows row2 h2
    · rw [h2, List.length_set]; exact hrw

theorem gridSetWall_inv {g g2 : Grid} {x y : Int} {b : Bool}
    (hset : gridSetWall g x y b = some g2) :
    0 ≤ x ∧ 0 ≤ y ∧ ∃ row c, g.get? y.toNat = some row ∧ row.get? x.toNat = some c
      ∧ g2 = g.set y.toNat (row.set x.toNat { c with isWall := b }) := by
  unfold gridSetWall at hset
  split_ifs at hset with hxy
  · obtain ⟨hx, hy⟩ := hxy
    rw [Option.bind_eq_some] at hset
    obtain ⟨row, hrow, hmap⟩ := hset
    rw [Option.map_eq_some'] at hmap
    obtain ⟨c, hc, hg2⟩ := hmap
    exact ⟨hx, hy, row, c, hrow, hc, hg2.symm⟩

theorem nonWallAt_setWall_self {g g2 : Grid} {x y : Int}
    (hset : gridSetWall g x y false = some g2) : nonWallAt g2 x y := by
  obtain ⟨hx, hy, row, c, hrow, hc, rfl⟩ := gridSetWall_inv hset
  have hyn : y.toNat < g.length := (List.get?_eq_some.mp hrow).1
  have hxn : x.toNat < row.length := (List.get?_eq_some.mp hc).1
  refine ⟨{ c with isWall := false }, ?_, rfl⟩
  unfold gridGet
  rw [if_pos ⟨hx, hy⟩, List.get?_set_eq_of_lt _ hyn, Option.some_bind,
    List.get?_set_eq_of_lt _ hxn]

theorem nonWallAt_setWall_preserve {g g2 : Grid} {x y x2 y2 : Int}
    (hset : gridSetWall g x y false = some g2)
    (hnw : nonWallAt g x2 y2) : nonWallAt g2 x2 y2 := by
  obtain ⟨hx, hy, row, c, hrow, hc, rfl⟩ := gridSetWall_inv hset
  obtain ⟨c2, hc2, hw2⟩ := hnw
  unfold gridGet at hc2
  split_ifs at hc2 with h2
  · rw [Option.bind_eq_some] at hc2
    obtain ⟨row2, hrow2, hc2'⟩ := hc2
    by_cases hyy : y.toNat = y2.toNat
    · rw [hyy] at hrow
      rw [hrow] at hrow2
      obtain rfl : row = row2 := by injection hrow2
      by_cases hxx : x.toNat = x2.toNat
      · refine ⟨{ c with isWall := false }, ?_, rfl⟩
        unfold gridGet
        rw [if_pos h2, Option.bind_eq_some]
        refine ⟨row.set x.toNat { c with isWall := false }, ?_, ?_⟩
        · rw [hyy]
          exact List.get?_set_eq_of_lt _ (List.get?_eq_some.mp hrow).1
        · rw [hxx]
          exact List.get?_set_eq_of_lt _
            (by rw [← hxx]; exact (List.get?_eq_some.mp hc).1)
      · refine ⟨c2, ?_, hw2⟩
        unfold gridGet
        rw [if_pos h2, Option.bind_eq_some]
        refine ⟨row.set x.toNat { c with isWall := false }, ?_, ?_⟩
        · rw [hyy]
          exact List.get?_set_eq_of_lt _ (List.get?_eq_some.mp hrow).1
        · rw [List.get?_set_ne _ _ hxx]
          exact hc2'
    · refine ⟨c2, ?_, hw2⟩
      unfold gridGet
      rw [if_pos h2, Option.bind_eq_some]
      refine ⟨row2, ?_, hc2'⟩
      rw [List.get?_set_ne _ _ hyy]
      exact hrow2

theorem mem_interior_iff {w h : Nat} {p : Int × Int} :
    p ∈ interior w h ↔
      0 < p.1 ∧ p.1 < (w : Int) - 1 ∧ 0 < p.2 ∧ p.2 < (h : Int) - 1 := by
  unfold interior
  rw [Finset.mem_product, Finset.mem_Ioo, Finset.mem_Ioo]
  tauto

theorem interior_card_le (w h : Nat) : (interior w h).card ≤ w * h := by
  unfold interior
  rw [Finset.card_product, Int.card_Ioo, Int.card_Ioo]
  have h1 : ((w : Int) - 1 - 0 - 1).toNat ≤ w := by omega
  have h2 : ((h : Int) - 1 - 0 - 1).toNat ≤ h := by omega
  exact Nat.mul_le_mul h1 h2

/-- Sufficient fuel makes the carving loop terminate normally: from any
configuration whose stack holds only in-bounds positions and whose measure is
at most the fuel, the loop returns a grid of unchanged dimensions. -/
theorem carveLoop_isSome (w h : Nat) :
    ∀ (fuel : Nat) (grid : Grid) (stack : List Position)
      (visited : Finset (Int × Int)) (seed : Nat),
      gridDims grid w h →
      (∀ p ∈ stack, posInBounds w h p) →
      carveMeasure w h stack visited ≤ fuel →
      ∃ g2 s2, carveLoop w h fuel grid stack visited seed = some (g2, s2)
        ∧ gridDims g2 w h := by
  intro fuel
  induction fuel with
  | zero =>
    intro grid stack visited seed hg hb hm
    cases stack with
    | nil => exact ⟨grid, seed, rfl, hg⟩
    | cons cur rest =>
      exfalso
      unfold carveMeasure at hm
      simp only [List.length_cons] at hm
      omega
  | succ fuel ih =>
    intro grid stack visited seed hg hb hm
    cases stack with
    | nil => exact ⟨grid, seed, rfl, hg⟩
    | cons cur rest =>
      have hcur : posInBounds w h cur := hb cur (List.mem_cons_self _ _)
      cases hns : getUnvisitedNeighbors w h cur visited with
      | nil =>
        have hm2 : carveMeasure w h rest visited ≤ fuel := by
          unfold carveMeasure at hm ⊢
          simp only [List.length_cons] at hm
          omega
        obtain ⟨g2, s2, hloop, hg2⟩ := ih grid rest visited seed hg
          (fun p hp => hb p (List.mem_cons_of_mem _ hp)) hm2
        refine ⟨g2, s2, ?_, hg2⟩
        rw [show carveLoop w h (fuel + 1) grid (cur :: rest) visited seed
            = carveLoop w h fuel grid rest visited seed from by
          simp only [carveLoop, hns]]
        exact hloop
      | cons nb0 nbs =>
        have hr0 : 0 ≤ (rngNext seed).2 := rngNext_nonneg seed
        have hr1 : (rngNext seed).2 < 1 := rngNext_lt_one seed
        have hidx : ((rngNext seed).2 * (((nb0 :: nbs).length) : ℚ)).floor.toNat
            < (nb0 :: nbs).length :=
          floor_index_lt hr0 hr1 (Nat.succ_pos _)
        obtain ⟨nxt, hget, hmemn⟩ := get?_mem_of_lt hidx
        have hmem2 : nxt ∈ getUnvisitedNeighbors w h cur visited := by
          rw [hns]; exact hmemn
        obtain ⟨hb1, hb2, hb3, hb4, hb5⟩ := neighbors_bounds nxt hmem2
        obtain ⟨hc1, hc2, hc3, hc4⟩ := hcur
        obtain ⟨g2, hset2, hg2⟩ := gridSetWall_isSome hg
          ((cur.x + nxt.x) / 2) ((cur.y + nxt.y) / 2)
          (by omega) (by omega) (by omega) (by omega) false
        obtain ⟨g3, hset3, hg3⟩ := gridSetWall_isSome hg2
          nxt.x nxt.y (by omega) (by omega) (by omega) (by omega) false
        have hmemI : (nxt.x, nxt.y) ∈ interior w h :=
          mem_interior_iff.mpr ⟨hb1, hb2, hb3, hb4⟩
        have hmemdiff : (nxt.x, nxt.y) ∈ interior w h \ visited :=
          Finset.mem_sdiff.mpr ⟨hmemI, hb5⟩
        have hdiff : interior w h \ insert (nxt.x, nxt.y) visited
            = (interior w h \ visited).erase (nxt.x, nxt.y) := by
          ext q
          simp only [Finset.mem_sdiff, Finset.mem_erase, Finset.mem_insert]
          tauto
        have hcard : (interior w h \ insert (nxt.x, nxt.y) visited).card
            = (interior w h \ visited).card - 1 := by
          rw [hdiff, Finset.card_erase_of_mem hmemdiff]
        have hpos : 1 ≤ (interior w h \ visited).card :=
          Finset.card_pos.mpr ⟨_, hmemdiff⟩
        have hm2 : carveMeasure w h (nxt :: cur :: rest)
            (insert (nxt.x, nxt.y) visited) ≤ fuel := by
          unfold carveMeasure at hm ⊢
          simp only [List.length_cons] at hm ⊢
          omega
        have hbounds2 : ∀ p ∈ nxt :: cur :: rest, posInBounds w h p := by
          intro p hp
          rcases List.mem_cons.mp hp with rfl | hp2
          · exact ⟨by omega, by omega, by omega, by omega⟩
          · exact hb p hp2
        obtain ⟨gf, sf, hloop, hgf⟩ := ih g3 (nxt :: cur :: rest)
          (insert (nxt.x, nxt.y) visited) (rngNext seed).1 hg3 hbounds2 hm2
        refine ⟨gf, sf, ?_, hgf⟩
        rw [show carveLoop w h (fuel + 1) grid (cur :: rest) visited seed
            = carveLoop w h fuel g3 (nxt :: cur :: rest)
                (insert (nxt.x, nxt.y) visited) (rngNext seed).1 from by
          simp only [carveLoop, hns, hget, hset2, hset3]]
        exact hloop

theorem initGrid_dims (w h : Nat) : gridDims (initGrid w h) w h := by
  constructor
  · unfold initGrid
    rw [List.length_map, List.length_range]
  · intro row hrow
    unfold initGrid at hrow
    rw [List.mem_map] at hrow
    obtain ⟨y, -, rfl⟩ := hrow
    rw [List.length_map, List.length_range]

/-- For dimensions at least 2 × 2 the generator body runs to completion and
returns a grid of the requested dimensions. -/
theorem generateCore_isSome {w h : Nat} (hw : 2 ≤ w) (hh : 2 ≤ h) :
    ∃ g s, generateCore w h = some (g, s) ∧ gridDims g w h := by
  have hw2 : (2 : Int) ≤ (w : Int) := by exact_mod_cast hw
  have hh2 : (2 : Int) ≤ (h : Int) := by exact_mod_cast hh
  obtain ⟨g1, hset1, hg1⟩ := gridSetWall_isSome (initGrid_dims w h) 1 1
    (by omega) (by omega) (by omega) (by omega) false
  have hbounds : ∀ p ∈ [(⟨1, 1⟩ : Position)], posInBounds w h p := by
    intro p hp
    simp only [List.mem_singleton] at hp
    subst hp
    refine ⟨?_, ?_, ?_, ?_⟩ <;> dsimp only <;> omega
  have hfuel : carveMeasure w h [⟨1, 1⟩] {((1 : Int), (1 : Int))} ≤ mazeFuel w h := by
    unfold carveMeasure mazeFuel
    have h1 : ((interior w h) \ {((1 : Int), (1 : Int))}).card ≤ (interior w h).card :=
      Finset.card_le_card Finset.sdiff_subset
    have h2 := interior_card_le w h
    have h3 : 2 * w * h = 2 * (w * h) := by ring
    simp only [List.length_singleton]
    omega
  obtain ⟨g2, s2, hloop, hg2⟩ := carveLoop_isSome w h (mazeFuel w h) g1
    [⟨1, 1⟩] {((1 : Int), (1 : Int))} 555 hg1 hbounds hfuel
  obtain ⟨g3, hset3, hg3⟩ := gridSetWall_isSome hg2 0 0
    (by omega) (by omega) (by omega) (by omega) false
  obtain ⟨g4, hset4, hg4⟩ := gridSetWall_isSome hg3 1 0
    (by omega) (by omega) (by omega) (by omega) false
  obtain ⟨g5, hset5, hg5⟩ := gridSetWall_isSome hg4 0 1
    (by omega) (by omega) (by omega) (by omega) false
  obtain ⟨g6, hset6, hg6⟩ := gridSetWall_isSome hg5 1 1
    (by omega) (by omega) (by omega) (by omega) false
  obtain ⟨g7, hset7, hg7⟩ := gridSetWall_isSome hg6 ((w : Int) - 1) ((h : Int) - 1)
    (by omega) (by omega) (by omega) (by omega) false
  obtain ⟨g8, hset8, hg8⟩ := gridSetWall_isSome hg7 ((w : Int) - 1) ((h : Int) - 2)
    (by omega) (by omega) (by omega) (by omega) false
  obtain ⟨g9, hset9, hg9⟩ := gridSetWall_isSome hg8 ((w : Int) - 2) ((h : Int) - 1)
    (by omega) (by omega) (by omega) (by omega) false
  obtain ⟨g10, hset10, hg10⟩ := gridSetWall_isSome hg9 ((w : Int) - 2) ((h : Int) - 2)
    (by omega) (by omega) (by omega) (by omega) false
  refine ⟨g10, s2, ?_, hg10⟩
  simp only [generateCore, hset1, hloop, hset3, hset4, hset5, hset6, hset7,
    hset8, hset9, hset10, Option.some_bind, Option.map_some']

theorem generate_isSome {w h : Nat} (hw : 2 ≤ w) (hh : 2 ≤ h) :
    ∃ g, generate w h = some g ∧ gridDims g w h := by
  obtain ⟨g, s, hc, hd⟩ := generateCore_isSome hw hh
  refine ⟨g, ?_, hd⟩
  simp [generate, MazeGenerator.generateM, MazeGenerator.make, hc]

/-! ## Claim theorems: maze generator -/

/-- C2 counterexample: the claim asserts `generate()` succeeds for every
width ≥ 1 and height ≥ 1, but at width = height = 1 the write
`grid[1][1].isWall = false` at the DFS start (1,1) dereferences `undefined`
and the call throws (result `none`). -/
theorem claim_C2_counterexample : generate 1 1 = none := by decide

/-- C2 (amended): `generate()` succeeds with a fully populated height-by-width
grid for every width ≥ 2 and height ≥ 2; for width = 1 or height = 1 the call
throws on an out-of-bounds access instead of succeeding. -/
theorem claim_C2_generate_total (w h : Nat) (hw : 2 ≤ w) (hh : 2 ≤ h) :
    ∃ g, generate w h = some g ∧ g.length = h ∧ ∀ row ∈ g, row.length = w := by
  obtain ⟨g, hgen, hd⟩ := generate_isSome hw hh
  exact ⟨g, hgen, hd.1, hd.2⟩

/-- Witness for the amended C2 at the smallest size the test-suite calls the
minimum viable maze, 3 × 3. -/
theorem claim_C2_generate_total_witness :
    ∃ g, generate 3 3 = some g ∧ g.length = 3 ∧ ∀ row ∈ g, row.length = 3 :=
  claim_C2_generate_total 3 3 (by decide) (by decide)

/-- C4: the grid produced by `generate()` is independent of the rng state the
instance happens to hold (the method re-seeds to 555 on entry), so repeated
calls on the same instance and calls on a freshly constructed instance with
the same dimensions produce bit-identical grids. -/
theorem claim_C4_determinism (w h s1 s2 : Nat) (m : MazeGenerator) :
    (MazeGenerator.generateM ⟨w, h, s1⟩).1 = (MazeGenerator.generateM ⟨w, h, s2⟩).1
    ∧ (m.generateM.2.generateM).1 = m.generateM.1
    ∧ ((MazeGenerator.make m.width m.height).generateM).1 = m.generateM.1 := by
  refine ⟨?_, ?_, ?_⟩
  · unfold MazeGenerator.generateM
    cases generateCore w h <;> rfl
  · cases hc : generateCore m.width m.height with
    | none => simp [MazeGenerator.generateM, hc]
    | some gs => simp [MazeGenerator.generateM, hc]
  · cases hc : generateCore m.width m.height with
    | none => simp [MazeGenerator.generateM, MazeGenerator.make, hc]
    | some gs => simp [MazeGenerator.generateM, MazeGenerator.make, hc]

/-- C5: whenever `generate()` returns a maze, the four cells of the 2×2 block
at the start corner and the four cells of the 2×2 block at the goal corner
are all non-wall, regardless of what the carving produced. -/
theorem claim_C5_corner_carving (w h : Nat) (g : Grid)
    (hgen : generate w h = some g) :
    nonWallAt g 0 0 ∧ nonWallAt g 1 0 ∧ nonWallAt g 0 1 ∧ nonWallAt g 1 1
    ∧ nonWallAt g ((w : Int) - 1) ((h : Int) - 1)
    ∧ nonWallAt g ((w : Int) - 1) ((h : Int) - 2)
    ∧ nonWallAt g ((w : Int) - 2) ((h : Int) - 1)
    ∧ nonWallAt g ((w : Int) - 2) ((h : Int) - 2) := by
  obtain ⟨s, hcore⟩ : ∃ s, generateCore w h = some (g, s) := by
    unfold generate MazeGenerator.generateM MazeGenerator.make at hgen
    cases hcore : generateCore w h with
    | none =>
      rw [hcore] at hgen
      simp at hgen
    | some gs =>
      rw [hcore] at hgen
      simp only [Option.some.injEq] at hgen
      subst hgen
      exact ⟨gs.2, rfl⟩
  simp only [generateCore, Option.bind_eq_some, Option.map_eq_some',
    Prod.mk.injEq] at hcore
  obtain ⟨g1, hset1, r, hloop, g3, hset3, g4, hset4, g5, hset5, g6, hset6,
    g7, hset7, g8, hset8, g9, hset9, g10, hset10, hg, -⟩ := hcore
  subst hg
  refine ⟨?_, ?_, ?_, ?_, ?_, ?_, ?_, ?_⟩
  · exact nonWallAt_setWall_preserve hset10 (nonWallAt_setWall_preserve hset9
      (nonWallAt_setWall_preserve hset8 (nonWallAt_setWall_preserve hset7
      (nonWallAt_setWall_preserve hset6 (nonWallAt_setWall_preserve hset5
      (nonWallAt_setWall_preserve hset4 (nonWallAt_setWall_self hset3)))))))
  · exact nonWallAt_setWall_preserve hset10 (nonWallAt_setWall_preserve hset9
      (nonWallAt_setWall_preserve hset8 (nonWallAt_setWall_preserve hset7
      (nonWallAt_setWall_preserve hset6 (nonWallAt_setWall_preserve hset5
      (nonWallAt_setWall_self hset4))))))
  · exact nonWallAt_setWall_preserve hset10 (nonWallAt_setWall_preserve hset9
      (nonWallAt_setWall_preserve hset8 (nonWallAt_setWall_preserve hset7
      (nonWallAt_setWall_preserve hset6 (nonWallAt_setWall_self hset5)))))
  · exact nonWallAt_setWall_preserve hset10 (nonWallAt_setWall_preserve hset9
      (nonWallAt_setWall_preserve hset8 (nonWallAt_setWall_preserve hset7
      (nonWallAt_setWall_self hset6))))
  · exact nonWallAt_setWall_preserve hset10 (nonWallAt_setWall_preserve hset9
      (nonWallAt_setWall_preserve hset8 (nonWallAt_setWall_self hset7)))
  · exact nonWallAt_setWall_preserve hset10 (nonWallAt_setWall_preserve hset9
      (nonWallAt_setWall_self hset8))
  · exact nonWallAt_setWall_preserve hset10 (nonWallAt_setWall_self hset9)
  · exact nonWallAt_setWall_self hset10

/-- Witness for C5 on the concrete 2 × 2 maze (where the two corner blocks
coincide). -/
theorem claim_C5_corner_carving_witness :
    generate 2 2 = some ((generate 2 2).getD [])
    ∧ nonWallAt ((generate 2 2).getD []) 0 0
    ∧ nonWallAt ((generate 2 2).getD []) ((2 : Int) - 1) ((2 : Int) - 2) := by
  have hm := claim_C5_corner_carving 2 2 ((generate 2 2).getD []) (by decide)
  exact ⟨by decide, hm.1, hm.2.2.2.2.2.1⟩

/-- C9: the seeded generator's values always lie in [0, 1); hence with a
non-empty candidate list the selection index `floor(next() * length)` is in
range, the chosen cell is one of the unvisited interior candidates, and the
subsequent grid writes at the midpoint wall and at the chosen neighbor are in
bounds (succeed) on a well-dimensioned grid. -/
theorem claim_C9_rng_index_bounds (w h : Nat) (grid : Grid) (cur nxt : Position)
    (visited : Finset (Int × Int)) (seed : Nat)
    (hg : gridDims grid w h) (hcur : posInBounds w h cur)
    (hmem : nxt ∈ getUnvisitedNeighbors w h cur visited) :
    (0 ≤ (rngNext seed).2 ∧ (rngNext seed).2 < 1)
    ∧ ((rngNext seed).2 * ((getUnvisitedNeighbors w h cur visited).length : ℚ)).floor.toNat
        < (getUnvisitedNeighbors w h cur visited).length
    ∧ (∃ p, (getUnvisitedNeighbors w h cur visited).get?
          (((rngNext seed).2
            * ((getUnvisitedNeighbors w h cur visited).length : ℚ)).floor.toNat)
          = some p ∧ p ∈ getUnvisitedNeighbors w h cur visited)
    ∧ (gridSetWall grid ((cur.x + nxt.x) / 2) ((cur.y + nxt.y) / 2) false).isSome = true
    ∧ (gridSetWall grid nxt.x nxt.y false).isSome = true := by
  have hr0 := rngNext_nonneg seed
  have hr1 := rngNext_lt_one seed
  have hlen : 0 < (getUnvisitedNeighbors w h cur visited).length :=
    List.length_pos.mpr (List.ne_nil_of_mem hmem)
  have hidx := floor_index_lt hr0 hr1 hlen
  obtain ⟨hb1, hb2, hb3, hb4, -⟩ := neighbors_bounds nxt hmem
  obtain ⟨hc1, hc2, hc3, hc4⟩ := hcur
  obtain ⟨gw, hsw, -⟩ := gridSetWall_isSome hg ((cur.x + nxt.x) / 2)
    ((cur.y + nxt.y) / 2) (by omega) (by omega) (by omega) (by omega) false
  obtain ⟨gn, hsn, -⟩ := gridSetWall_isSome hg nxt.x nxt.y
    (by omega) (by omega) (by omega) (by omega) false
  exact ⟨⟨hr0, hr1⟩, hidx, get?_mem_of_lt hidx, by rw [hsw]; rfl, by rw [hsn]; rfl⟩

/-- Witness for C9 at a concrete configuration: the fresh 5 × 5 all-wall grid,
current cell (1,1), candidate neighbor (3,1), empty visited set, seed 555. -/
theorem claim_C9_rng_index_bounds_witness :
    (0 ≤ (rngNext 555).2 ∧ (rngNext 555).2 < 1)
    ∧ ((rngNext 555).2
        * ((getUnvisitedNeighbors 5 5 ⟨1, 1⟩ ∅).length : ℚ)).floor.toNat
        < (getUnvisitedNeighbors 5 5 ⟨1, 1⟩ ∅).length
    ∧ (∃ p, (getUnvisitedNeighbors 5 5 ⟨1, 1⟩ ∅).get?
          (((rngNext 555).2
            * ((getUnvisitedNeighbors 5 5 ⟨1, 1⟩ ∅).length : ℚ)).floor.toNat)
          = some p ∧ p ∈ getUnvisitedNeighbors 5 5 ⟨1, 1⟩ ∅)
    ∧ (gridSetWall (initGrid 5 5) ((Position.x ⟨1, 1⟩ + Position.x ⟨3, 1⟩) / 2)
        ((Position.y ⟨1, 1⟩ + Position.y ⟨3, 1⟩) / 2) false).isSome = true
    ∧ (gridSetWall (initGrid 5 5) (Position.x ⟨3, 1⟩) (Position.y ⟨3, 1⟩)
        false).isSome = true :=
  claim_C9_rng_index_bounds 5 5 (initGrid 5 5) ⟨1, 1⟩ ⟨3, 1⟩ ∅ 555
    (by decide) (by decide) (by decide)

end LearnAMaze
